import Mathlib

/-
  Verification of the AT gateway server (at-server.py).

  Shallow embedding of the parts of the program relevant to the claims:
  the PDU SMS codec (read_incoming_sms, decode_7bit, decode_ucs2,
  decode_timestamp, decode_number), the concatenated-SMS reassembly store
  (ATClient._handle_partial_sms), the AT arbiter response loop
  (ATConnection.send_command), the call handler (CallHandler.handle), the
  webhook retry loop (WeChatNotification._do_send) and the schedule
  watchdog (ScheduleFrequencyLock.check_network_status / monitor_loop).

  Python bytes are modelled as List Nat (each element < 256 when produced
  by hex decoding), Python str as Lean String, wall-clock instants
  (time.time()) as Int, and datetime values by the inductive PyDateTime
  below, whose constructor PyDateTime.now stands for the value of
  datetime.now() at the moment of the call.
-/

/-- A Python datetime value: either a concrete parsed timestamp or the
value of datetime.now() at the call site. -/
inductive PyDateTime where
  | mk (year month day hour minute second : Nat)
  | now
deriving DecidableEq

/-- One hex digit of bytes.fromhex. -/
def hexDigit (ch : Char) : Option Nat :=
  let n := ch.toNat
  if 48 ≤ n ∧ n ≤ 57 then some (n - 48)
  else if 65 ≤ n ∧ n ≤ 70 then some (n - 55)
  else if 97 ≤ n ∧ n ≤ 102 then some (n - 87)
  else none

/-- bytes.fromhex: pairs of hex digits, spaces allowed between byte pairs;
returns none where Python raises ValueError. -/
def bytes_fromhex_aux : List Char → Option (List Nat)
  | [] => some []
  | ' ' :: rest => bytes_fromhex_aux rest
  | c1 :: c2 :: rest => do
      let h ← hexDigit c1
      let l ← hexDigit c2
      let bs ← bytes_fromhex_aux rest
      pure ((16 * h + l) :: bs)
  | [_] => none

def bytes_fromhex (s : String) : Option (List Nat) :=
  bytes_fromhex_aux s.data

/-- GSM_7BIT_ALPHABET from the source (128 characters).  The apostrophe
character is spliced in by code point to keep the source free of a bare
apostrophe inside a string literal. -/
def GSM_7BIT_ALPHABET : List Char :=
  "@£$¥èéùìòÇ\nØø\rÅåΔ_ΦΓΛΩΠΨΣΘΞ\x1bÆæßÉ !\"#¤%&".data
    ++ [Char.ofNat 39]
    ++ "()*+,-./0123456789:;<=>?¡ABCDEFGHIJKLMNOPQRSTUVWXYZÄÖÑÜ§¿abcdefghijklmnopqrstuvwxyzäöñüà".data

/-- The inner `while shift >= 7` loop of decode_7bit. -/
def sevenLoop (tmp shift : Nat) (acc : List Nat) : Nat × Nat × List Nat :=
  if _h : 7 ≤ shift then
    sevenLoop (tmp >>> 7) (shift - 7) (acc ++ [tmp &&& 127])
  else
    (tmp, shift, acc)
termination_by shift
decreasing_by omega

/-- decode_7bit from the source: unpack septets with a running bit
accumulator, then map through the GSM default alphabet. -/
def decode_7bit (encoded_bytes : List Nat) (length : Nat) : String :=
  let st := encoded_bytes.foldl
    (fun (s : Nat × Nat × List Nat) byte =>
      let tmp := s.1 ||| (byte <<< s.2.1)
      let shift := s.2.1 + 8
      sevenLoop tmp shift s.2.2)
    (0, 0, [])
  let result :=
    if 0 < st.2.1 ∧ st.2.2.length < length then st.2.2 ++ [st.1 &&& 127] else st.2.2
  String.mk ((result.take length).map (fun b => GSM_7BIT_ALPHABET.getD b (Char.ofNat 63)))

/-- Pair the bytes into big-endian 16-bit code units; fails on odd
length. -/
def utf16ToUnits : List Nat → Option (List Nat)
  | [] => some []
  | [_] => none
  | b1 :: b2 :: rest => (utf16ToUnits rest).map (fun us => (b1 * 256 + b2) :: us)

/-- Decode a sequence of UTF-16 code units; fails on a lone surrogate
or an unpaired high surrogate. -/
def unitsDecode : List Nat → Option (List Char)
  | [] => some []
  | u :: rest =>
      if 55296 ≤ u ∧ u ≤ 56319 then
        match rest with
        | v :: rest2 =>
            if 56320 ≤ v ∧ v ≤ 57343 then
              (unitsDecode rest2).map
                (fun cs => Char.ofNat (65536 + (u - 55296) * 1024 + (v - 56320)) :: cs)
            else none
        | [] => none
      else if 56320 ≤ u ∧ u ≤ 57343 then none
      else (unitsDecode rest).map (fun cs => Char.ofNat u :: cs)

/-- Strict UTF-16 big-endian decoding, as performed by Python
bytes.decode with encoding utf-16-be: fails on odd length, a lone
surrogate, or an unpaired high surrogate. -/
def utf16be_decode (bs : List Nat) : Option (List Char) :=
  utf16ToUnits bs >>= unitsDecode

/-- decode_ucs2 from the source: try utf-16-be, and on any decode error
return a question mark for every two input bytes. -/
def decode_ucs2 (encoded_bytes : List Nat) : String :=
  match utf16be_decode encoded_bytes with
  | some cs => String.mk cs
  | none => String.mk (List.replicate (encoded_bytes.length / 2) '?')

/-- Day count used by datetime validation inside strptime. -/
def daysInMonth (y m : Nat) : Nat :=
  if m = 2 then
    (if y % 4 = 0 ∧ (y % 100 ≠ 0 ∨ y % 400 = 0) then 29 else 28)
  else if m = 4 ∨ m = 6 ∨ m = 9 ∨ m = 11 then 30 else 31

/-- Whether datetime.strptime accepts the string the source builds from
the BCD fields ("20{YY}-{MM:02d}-{DD:02d} {hh:02d}:{mm:02d}:{ss:02d}"
against "%Y-%m-%d %H:%M:%S").  %Y requires exactly four digits, so YY
must have two digits; the remaining bounds are the datetime validity
checks. -/
def strptimeOk (yy mm dd hh mi ss : Nat) : Bool :=
  decide (10 ≤ yy ∧ yy ≤ 99 ∧ 1 ≤ mm ∧ mm ≤ 12 ∧ 1 ≤ dd ∧
          dd ≤ daysInMonth (2000 + yy) mm ∧ hh ≤ 23 ∧ mi ≤ 59 ∧ ss ≤ 59)

/-- decode_timestamp from the source: semi-octet BCD fields; any
indexing or parsing failure falls back to datetime.now(). -/
def decode_timestamp (timestamp_bytes : List Nat) : PyDateTime :=
  match (do
      let b0 ← timestamp_bytes.get? 0
      let b1 ← timestamp_bytes.get? 1
      let b2 ← timestamp_bytes.get? 2
      let b3 ← timestamp_bytes.get? 3
      let b4 ← timestamp_bytes.get? 4
      let b5 ← timestamp_bytes.get? 5
      let yy := (b0 % 16) * 10 + b0 / 16
      let mm := (b1 % 16) * 10 + b1 / 16
      let dd := (b2 % 16) * 10 + b2 / 16
      let hh := (b3 % 16) * 10 + b3 / 16
      let mi := (b4 % 16) * 10 + b4 / 16
      let ss := (b5 % 16) * 10 + b5 / 16
      if strptimeOk yy mm dd hh mi ss then
        pure (PyDateTime.mk (2000 + yy) mm dd hh mi ss)
      else none : Option PyDateTime) with
  | some d => d
  | none => PyDateTime.now

/-- decode_number from the source: low nibble first, then high nibble
guarded by the target length; nibbles above 9 are skipped. -/
def decode_number_aux : List Nat → Nat → String → String
  | [], _, acc => acc
  | b :: rest, len, acc =>
      let d1 := b % 16
      let d2 := b / 16
      let acc1 := if d1 ≤ 9 then acc.push (Char.ofNat (48 + d1)) else acc
      let acc2 := if acc1.length < len ∧ d2 ≤ 9 then acc1.push (Char.ofNat (48 + d2)) else acc1
      decode_number_aux rest len acc2

def decode_number (number_bytes : List Nat) (number_length : Nat) : String :=
  decode_number_aux number_bytes number_length ""

/-- The concatenation metadata extracted from a UDH; models the dict
{"reference", "parts_count", "part_number"} built by read_incoming_sms. -/
structure PartialInfo where
  reference : Nat
  parts_count : Nat
  part_number : Nat
deriving DecidableEq

/-- The dict returned by read_incoming_sms.  The field pinfo models the
key named "partial" in the source. -/
structure SmsDict where
  sender : String
  content : String
  date : PyDateTime
  pinfo : Option PartialInfo
deriving DecidableEq

/-- The body of read_incoming_sms after bytes.fromhex, with each Python
indexing operation that can raise IndexError modelled as an Option
lookup; none corresponds to an exception reaching the outer handler. -/
def read_incoming_sms_body (pdu_bytes : List Nat) : Option SmsDict := do
  let smsc_length ← pdu_bytes.get? 0
  let pos := 1 + smsc_length
  let pdu_type ← pdu_bytes.get? pos
  let pos := pos + 1
  let sender_length ← pdu_bytes.get? pos
  let pos := pos + 1
  let _sender_type ← pdu_bytes.get? pos
  let pos := pos + 1
  let sender_bytes := (pdu_bytes.drop pos).take ((sender_length + 1) / 2)
  let sender := decode_number sender_bytes sender_length
  let pos := pos + (sender_length + 1) / 2
  -- protocol identifier skipped without a read
  let pos := pos + 1
  let dcs ← pdu_bytes.get? pos
  let is_ucs2 := dcs % 16 = 8
  let pos := pos + 1
  let timestamp := decode_timestamp ((pdu_bytes.drop pos).take 7)
  let pos := pos + 7
  let data_length ← pdu_bytes.get? pos
  let pos := pos + 1
  let data_bytes := pdu_bytes.drop pos
  let udh ← (if pdu_type &&& 64 ≠ 0 then do
      let d0 ← data_bytes.get? 0
      let udh_length := d0 + 1
      if 6 ≤ udh_length then do
        let iei ← data_bytes.get? 1
        if iei = 0 ∨ iei = 8 then do
          let ref ← data_bytes.get? 3
          let total ← data_bytes.get? 4
          let seq ← data_bytes.get? 5
          pure (udh_length, some (PartialInfo.mk ref total seq))
        else pure (udh_length, (none : Option PartialInfo))
      else pure (udh_length, (none : Option PartialInfo))
    else pure (0, (none : Option PartialInfo)) : Option (Nat × Option PartialInfo))
  let content_bytes := data_bytes.drop udh.1
  let content := if is_ucs2 then decode_ucs2 content_bytes else decode_7bit content_bytes data_length
  pure (SmsDict.mk sender content timestamp udh.2)

/-- The sentinel dict produced by the except-branch of read_incoming_sms. -/
def sentinel_sms (pdu_hex : String) : SmsDict :=
  SmsDict.mk "unknown" ("PDU解码失败: " ++ pdu_hex) PyDateTime.now none

/-- read_incoming_sms from the source: decode the hex string, parse the
PDU, and on any error return the sentinel instead of raising. -/
def read_incoming_sms (pdu_hex : String) : SmsDict :=
  match bytes_fromhex pdu_hex >>= read_incoming_sms_body with
  | some d => d
  | none => sentinel_sms pdu_hex

/-- A PDU whose user-data header is a single 16-bit-reference (IEI 0x08)
concatenation element: header bytes 06 08 04 hi lo total seq, followed
by the UCS-2 payload "A".  The 3GPP 16-bit reference is hi*256+lo. -/
def c6_pdu_bytes (hi lo total seq : Nat) : List Nat :=
  [0, 68, 2, 145, 33, 0, 8, 0, 0, 0, 0, 0, 0, 0, 9, 6, 8, 4, hi, lo, total, seq, 0, 65]

/- ===== Events emitted by handlers (notification fan-out and WebSocket
broadcast), as far as the claims need them. ===== -/

/-- An observable effect: a NotificationManager.notify_all call, a
new_sms WebSocket broadcast, or an incoming_call WebSocket broadcast. -/
inductive Event where
  | notify (sender content kind : String)
  | smsBroadcast (sender content time_ : String) (isComplete : Bool)
  | callBroadcast (time_ number state : String)
deriving DecidableEq

/- ===== Reassembly store (ATClient._partial_messages and
ATClient._handle_partial_sms). ===== -/

/-- One record of the reassembly store: the dict
{"sender", "parts", "total_parts", "timestamp"}.  parts is the inner
dict, modelled as an insertion-ordered association list (Python dict
semantics). -/
structure PRec where
  sender : String
  parts : List (Nat × String)
  total_parts : Nat
  timestamp : Int
deriving DecidableEq

/-- The store itself, an insertion-ordered dict keyed by
f"{sender}_{reference}". -/
abbrev PStore := List (String × PRec)

/-- The expiry sweep: delete every record whose timestamp is more than
3600 seconds in the past. -/
def expire_old (store : PStore) (now : Int) : PStore :=
  store.filter (fun kv => decide (now - kv.2.timestamp ≤ 3600))

/-- min(keys, key=timestamp): the first key, in dict order, holding the
minimal timestamp (Python min keeps the first of equal elements). -/
def oldest_key_aux : PStore → String → Int → String
  | [], bk, _ => bk
  | (k, r) :: rest, bk, bt =>
      if r.timestamp < bt then oldest_key_aux rest k r.timestamp
      else oldest_key_aux rest bk bt

def oldest_key : PStore → Option String
  | [] => none
  | (k, r) :: rest => some (oldest_key_aux rest k r.timestamp)

/-- del store[k]. -/
def dict_del (store : PStore) (k : String) : PStore :=
  store.filter (fun kv => decide (kv.1 ≠ k))

/-- store[k] = v, keeping the position of an existing key and appending
a new one (Python dict insertion order). -/
def dict_set (store : PStore) (k : String) (v : PRec) : PStore :=
  if (store.lookup k).isSome then
    store.map (fun kv => if kv.1 = k then (k, v) else kv)
  else store ++ [(k, v)]

/-- parts[part_number] = content on the inner dict. -/
def parts_set (parts : List (Nat × String)) (k : Nat) (v : String) : List (Nat × String) :=
  if (parts.lookup k).isSome then
    parts.map (fun kv => if kv.1 = k then (k, v) else kv)
  else parts ++ [(k, v)]

/-- The join step: "".join(parts[i] for i in range(1, total+1)); none
models the KeyError Python raises when a part index is missing. -/
def join_parts (parts : List (Nat × String)) (total : Nat) : Option String :=
  ((List.range' 1 total).mapM (fun i => parts.lookup i)).map String.join

/-- Lines 2236-2249 of the source: the expiry sweep followed by the
`len > 100` cap eviction of the record oldest by timestamp. -/
def hp_after_cap (store : PStore) (now : Int) : PStore :=
  let store1 := expire_old store now
  if 100 < store1.length then
    match oldest_key store1 with
    | some ok => dict_del store1 ok
    | none => store1
  else store1

/-- Lines 2251-2257 of the source: create the record for key on its
first part. -/
def hp_insert (store2 : PStore) (key sender : String) (p : PartialInfo) (now : Int) : PStore :=
  if (store2.lookup key).isSome then store2
  else store2 ++ [(key, PRec.mk sender [] p.parts_count now)]

/-- ATClient._handle_partial_sms.  Arguments: the store, the fields of
the SMS dataclass that the method reads (sender, content, timestamp
string) together with its concatenation metadata p, and the value of
time.time().  Returns the new store, the emitted events in order, and a
flag that is true when the join raised KeyError (in which case the
store keeps the inserted part and nothing is emitted). -/
def handle_partial_sms (store : PStore) (sender content tstr : String)
    (p : PartialInfo) (now : Int) : PStore × List Event × Bool :=
  let key := sender ++ "_" ++ toString p.reference
  let store3 := hp_insert (hp_after_cap store now) key sender p now
  let rec0 := (store3.lookup key).getD (PRec.mk sender [] p.parts_count now)
  let rec1 : PRec := PRec.mk rec0.sender (parts_set rec0.parts p.part_number content)
      rec0.total_parts rec0.timestamp
  let store4 := dict_set store3 key rec1
  if rec1.parts.length = rec1.total_parts then
    match join_parts rec1.parts rec1.total_parts with
    | some full =>
        (dict_del store4 key,
         [Event.notify sender full "SMS", Event.smsBroadcast sender full tstr true],
         false)
    | none => (store4, [], true)
  else (store4, [], false)

/-- Deliver a sequence of parts of one concatenated SMS (fixed sender,
reference r and parts_count n) to _handle_partial_sms.  Each delivery is
(part_number, time.time() at delivery, sms.timestamp string); the
content of part i is c i. -/
def run_deliveries (sender : String) (r n : Nat) (c : Nat → String) :
    PStore → List (Nat × Int × String) → PStore × List Event
  | store, [] => (store, [])
  | store, (p, tm, st) :: rest =>
      let step := handle_partial_sms store sender (c p) st (PartialInfo.mk r n p) tm
      let next := run_deliveries sender r n c step.1 rest
      (next.1, step.2.1 ++ next.2)

/-- The combined content of a complete n-part message. -/
def fullContent (n : Nat) (c : Nat → String) : String :=
  String.join ((List.range' 1 n).map c)

/-- Key under which a message is stored. -/
def mkKey (sender : String) (r : Nat) : String :=
  sender ++ "_" ++ toString r

/-- The record present after the parts listed in K (in delivery order)
have been received, the first at time t0. -/
def rec_of (sender : String) (n : Nat) (c : Nat → String) (K : List Nat) (t0 : Int) : PRec :=
  PRec.mk sender (K.map (fun k => (k, c k))) n t0

/-- time.time() of the first delivery. -/
def first_time (ds : List (Nat × Int × String)) : Int :=
  match ds with
  | [] => 0
  | d :: _ => d.2.1

/-- sms.timestamp of the last delivery (the one shown in the combined
broadcast). -/
def last_tstr (ds : List (Nat × Int × String)) : String :=
  match ds.getLast? with
  | some d => d.2.2
  | none => ""

/-- The (sender, reference) → dict key map of _handle_partial_sms. -/
def keyOf (it : String × Nat) : String := it.1 ++ "_" ++ toString it.2

/-- The record held after the first part ("x", part 1 of 2, time 0) of
a fresh key has been inserted. -/
def c2_rec (it : String × Nat) : PRec := PRec.mk it.1 [(1, "x")] 2 0

/-- The store holding exactly the first parts of the given
(sender, reference) entries. -/
def c2_store (items : List (String × Nat)) : PStore :=
  items.map (fun it => (keyOf it, c2_rec it))

/-- Feed the first part (part 1 of 2, content "x", time 0) of each
listed (sender, reference) entry to _handle_partial_sms in turn. -/
def c2_fold (store : PStore) (items : List (String × Nat)) : PStore :=
  items.foldl
    (fun st it => (handle_partial_sms st it.1 "x" "t" (PartialInfo.mk it.2 2 1) 0).1) store

/-- The 101 distinct (sender, reference) entries of claim C2. -/
def c2_items : List (String × Nat) := (List.range 101).map (fun i => ("A" ++ toString i, 5))

/-- The store after inserting the 101 distinct entries of claim C2. -/
def c2_run : PStore := c2_fold [] c2_items

/- ===== AT arbiter response loop (ATConnection.send_command). ===== -/

/-- What one `await self.receive(4096)` yields inside the response loop:
a chunk of bytes (possibly empty), or an exception caught by the inner
handler. -/
inductive Recv where
  | ok (data : List Nat)
  | exc
deriving DecidableEq

/-- The outcome of send_command as seen by its caller: the returned
bytearray, the final value of is_connected (assuming the connection was
up on entry), and whether the 1 MiB truncation warning was logged. -/
structure SendOut where
  response : List Nat
  connected : Bool
  truncated : Bool
deriving DecidableEq

/-- max_response_size from the source. -/
def max_response_size : Nat := 1024 * 1024

/-- ASCII bytes of a string. -/
def strBytes (s : String) : List Nat := s.data.map Char.toNat

/-- The terminator test of the response loop. -/
def has_terminator (r : List Nat) : Bool :=
  decide (strBytes "OK\r\n" <:+: r) || decide (strBytes "ERROR\r\n" <:+: r) ||
  decide (strBytes "+CMS ERROR:" <:+: r) || decide (strBytes "+CME ERROR:" <:+: r)

/-- The `while (time.time() - start_time) < self.response_timeout` loop
of send_command, driven by the finite list of receive results that occur
before the 2 s timeout elapses; exhausting the list is the timeout.
Mirrors the source: an empty chunk or an exception just continues; a
chunk that would push the buffer past 1 MiB is truncated and returned
with the warning; a terminator ends the response; on timeout an empty
buffer raises ConnectionError, which the outer handler converts to
is_connected = False and an empty return value. -/
def send_command_loop (response : List Nat) : List Recv → SendOut
  | [] =>
      if response = [] then SendOut.mk [] false false
      else SendOut.mk response true false
  | Recv.exc :: rest => send_command_loop response rest
  | Recv.ok chunk :: rest =>
      if chunk = [] then send_command_loop response rest
      else if max_response_size < response.length + chunk.length then
        SendOut.mk (response ++ chunk.take (max_response_size - response.length)) true true
      else if has_terminator (response ++ chunk) then
        SendOut.mk (response ++ chunk) true false
      else send_command_loop (response ++ chunk) rest

/-- ATConnection.send_command from the point where the command has been
written (entered with is_connected = true). -/
def send_command (chunks : List Recv) : SendOut :=
  send_command_loop [] chunks

/- ===== CallHandler. ===== -/

/-- A URC line as seen by CallHandler.handle: ring covers the
"RING"/"IRING" branch, clip a "+CLIP:" line together with the result of
the number-extracting regex search (none when the regex does not match),
ended a "^CEND:"/"NO CARRIER" line. -/
inductive CallLine where
  | ring
  | clip (number : Option String)
  | ended
deriving DecidableEq

/-- The mutable fields of CallHandler; call_timeout is the constant 30. -/
structure CallHandlerState where
  last_call_number : Option String
  last_call_time : Int
  ring_received : Bool
  current_call_state : String
deriving DecidableEq

/-- CallHandler.__init__. -/
def callHandlerInit : CallHandlerState :=
  CallHandlerState.mk none 0 false "idle"

/-- CallHandler.handle.  now is time.time(), nowStr the formatted
time.strftime string used in messages. -/
def CallHandler_handle (s : CallHandlerState) (line : CallLine) (now : Int)
    (nowStr : String) : CallHandlerState × List Event :=
  match line with
  | CallLine.ring =>
      (CallHandlerState.mk s.last_call_number s.last_call_time true "ringing", [])
  | CallLine.clip num =>
      let s1 := if ¬ s.ring_received then
          CallHandlerState.mk s.last_call_number s.last_call_time s.ring_received "ringing"
        else s
      match num with
      | some phone =>
          if some phone ≠ s1.last_call_number ∨ 30 < now - s1.last_call_time ∨
             s1.current_call_state = "idle" then
            let content := "时间：" ++ nowStr ++ "\n号码：" ++ phone ++ "\n状态：来电振铃"
            (CallHandlerState.mk (some phone) now s1.ring_received "ringing",
             [Event.notify "来电提醒" content "CALL",
              Event.callBroadcast nowStr phone "ringing"])
          else (s1, [])
      | none => (s1, [])
  | CallLine.ended =>
      let events :=
        match s.last_call_number with
        | some lastNum =>
            if lastNum = "" then []
            else
              [Event.notify "来电提醒"
                 ("时间：" ++ nowStr ++ "\n号码：" ++ lastNum ++ "\n状态：通话结束") "CALL",
               Event.callBroadcast nowStr lastNum "ended"]
        | none => []
      (CallHandlerState.mk none 0 false "idle", events)

/-- States reachable by CallHandler: whenever the state string is
"idle", no last caller is remembered (both are reset together). -/
def callInv (s : CallHandlerState) : Prop :=
  s.current_call_state = "idle" → s.last_call_number = none

/- ===== WeChatNotification._do_send. ===== -/

/-- The parsed body of a webhook HTTP reply: the errcode field of the
JSON (absent keys give None), or a body that is not valid JSON. -/
inductive HttpBody where
  | parsed (errcode : Option Int)
  | unparseable
deriving DecidableEq

/-- The outcome of one POST attempt: an HTTP reply, a non-timeout
exception (connection error and the like), or
asyncio.TimeoutError/CancelledError. -/
inductive AttemptOutcome where
  | http (status : Nat) (body : HttpBody)
  | netExc
  | timeoutExc
deriving DecidableEq

/-- The way _do_send ends: returning after a successful delivery,
dropping the message after exhausting retries, or returning early on a
timeout/cancellation.  Each constructor records how many POST attempts
were made. -/
inductive SendOutcome where
  | success (attempts : Nat)
  | dropped (attempts : Nat)
  | aborted (attempts : Nat)
deriving DecidableEq

/-- self.max_retries. -/
def max_retries : Nat := 3

/-- self.retry_delay (seconds). -/
def retry_delay : Nat := 1

/-- The success test of an attempt: HTTP 200 and a JSON body whose
errcode equals 0. -/
def attemptSucceeds (o : AttemptOutcome) : Bool :=
  match o with
  | AttemptOutcome.http 200 (HttpBody.parsed (some 0)) => true
  | _ => false

/-- The early-return test: asyncio.TimeoutError or CancelledError. -/
def attemptAborts (o : AttemptOutcome) : Bool :=
  match o with
  | AttemptOutcome.timeoutExc => true
  | _ => false

/-- Every other outcome is a retriable failure. -/
def attemptRetriable (o : AttemptOutcome) : Bool :=
  !(attemptSucceeds o) && !(attemptAborts o)

/-- The `while retries < self.max_retries` loop of _do_send.  fuel is
max_retries - retries; the loop body always returns before fuel runs
out, so the fuel-0 branch is unreachable from do_send.  The second
component collects the asyncio.sleep back-off durations
(retry_delay * retries after the increment). -/
def do_send_aux (attempts : Nat → AttemptOutcome) : Nat → Nat → SendOutcome × List Nat
  | 0, retries => (SendOutcome.dropped retries, [])
  | fuel + 1, retries =>
      if attemptSucceeds (attempts retries) then (SendOutcome.success (retries + 1), [])
      else if attemptAborts (attempts retries) then (SendOutcome.aborted (retries + 1), [])
      else if retries + 1 < max_retries then
        let r := do_send_aux attempts fuel (retries + 1)
        (r.1, retry_delay * (retries + 1) :: r.2)
      else (SendOutcome.dropped (retries + 1), [])

/-- WeChatNotification._do_send, as a function of the outcome of each
successive POST attempt. -/
def do_send (attempts : Nat → AttemptOutcome) : SendOutcome × List Nat :=
  do_send_aux attempts max_retries 0

/- ===== ScheduleFrequencyLock: network check and no-service watchdog. ===== -/

/-- Python `needle in haystack` on strings. -/
def strContains (haystack needle : String) : Bool :=
  decide (needle.data <:+: haystack.data)

/-- ScheduleFrequencyLock.check_network_status, as a function of the
decoded AT+CREG? and AT+CEREG? responses (the CEREG query is only made
when the CREG test fails, which does not change the result). -/
def check_network_status (cregResp ceregResp : String) : Bool :=
  if strContains cregResp "+CREG: 0,1" || strContains cregResp "+CREG: 0,5" then true
  else if strContains ceregResp "+CEREG: 0,1" || strContains ceregResp "+CEREG: 0,5" then true
  else false

/-- SCHEDULE_CONFIG default for the no-service TIMEOUT. -/
def default_no_service_timeout : Int := 180

/-- One pass of the no-service bookkeeping at the end of
ScheduleFrequencyLock.monitor_loop: given last_service_time, the current
time and this round's check_network_status result, returns the new
last_service_time and whether the unlock recovery sequence was issued. -/
def watchdog_step (last_service_time now : Int) (has_service : Bool)
    (timeout : Int) : Int × Bool :=
  if has_service then (now, false)
  else if timeout ≤ now - last_service_time then (now, true)
  else (last_service_time, false)

/- ===== Theorems. ===== -/

/-- Odd input length makes the byte-pairing step fail. -/
theorem utf16ToUnits_odd : ∀ (fuel : Nat) (bs : List Nat),
    bs.length ≤ fuel → bs.length % 2 = 1 → utf16ToUnits bs = none := by
  intro fuel
  induction fuel with
  | zero =>
    intro bs h1 h2
    cases bs with
    | nil => simp at h2
    | cons a t => simp at h1
  | succ n ih =>
    intro bs h1 h2
    match bs with
    | [] => simp at h2
    | [x] => rfl
    | b1 :: b2 :: rest =>
      simp only [List.length_cons] at h1 h2
      have hr : utf16ToUnits rest = none := by
        apply ih
        · omega
        · omega
      simp only [utf16ToUnits, hr]
      rfl

/-- C10: decode_ucs2 is total; a byte string that decodes as UTF-16
big-endian yields its decoded text, any failing input (odd-length
inputs always fail) yields the character ? repeated floor(n/2) times
for input length n. -/
theorem c10_decode_ucs2_total (bs : List Nat) :
    (∀ cs, utf16be_decode bs = some cs → decode_ucs2 bs = String.mk cs) ∧
    (utf16be_decode bs = none →
      decode_ucs2 bs = String.mk (List.replicate (bs.length / 2) '?')) ∧
    (bs.length % 2 = 1 →
      decode_ucs2 bs = String.mk (List.replicate (bs.length / 2) '?')) := by
  refine ⟨?_, ?_, ?_⟩
  · intro cs h
    simp [decode_ucs2, h]
  · intro h
    simp [decode_ucs2, h]
  · intro h
    have hu : utf16ToUnits bs = none := utf16ToUnits_odd bs.length bs le_rfl h
    simp [decode_ucs2, utf16be_decode, hu]

/-- Witness for C10 at concrete inputs: the bytes of "A" decode to "A",
and the odd-length input [0, 0, 0] yields one question mark. -/
theorem c10_decode_ucs2_witness :
    (utf16be_decode [0, 65] = some [Char.ofNat 65] ∧
      decode_ucs2 [0, 65] = String.mk [Char.ofNat 65]) ∧
    (([0, 0, 0] : List Nat).length % 2 = 1 ∧
      decode_ucs2 [0, 0, 0] =
        String.mk (List.replicate (([0, 0, 0] : List Nat).length / 2) '?')) :=
  ⟨⟨by decide, (c10_decode_ucs2_total [0, 65]).1 [Char.ofNat 65] (by decide)⟩,
   ⟨by decide, (c10_decode_ucs2_total [0, 0, 0]).2.2 (by decide)⟩⟩

/-- C5: any indexing or decoding error inside read_incoming_sms is
swallowed and replaced by the sentinel dict with sender "unknown", a
PDU-decode-failed message carrying the original hex string, the current
wall-clock time, and no concatenation metadata. -/
theorem c5_decode_error_sentinel (pdu_hex : String)
    (h : bytes_fromhex pdu_hex >>= read_incoming_sms_body = none) :
    read_incoming_sms pdu_hex =
      SmsDict.mk "unknown" ("PDU解码失败: " ++ pdu_hex) PyDateTime.now none := by
  unfold read_incoming_sms
  rw [h]
  rfl

/-- Witness for C5: the non-hex input "ZZ" takes the error path and
produces exactly the sentinel. -/
theorem c5_decode_error_sentinel_witness :
    (bytes_fromhex "ZZ" >>= read_incoming_sms_body = none) ∧
    read_incoming_sms "ZZ" =
      SmsDict.mk "unknown" ("PDU解码失败: " ++ "ZZ") PyDateTime.now none :=
  ⟨by decide, c5_decode_error_sentinel "ZZ" (by decide)⟩

/-- C6 counterexample: on the concrete PDU
00 44 02 91 21 00 08 00×7 09 | 06 08 04 01 02 03 02 | 00 41, whose
16-bit concatenation element carries reference 0x0102 = 258, total 3,
sequence 2, the code does not produce
{reference 258, parts_count 3, part_number 2} as the claim requires: it
reads the single byte 0x01 as the reference and shifts the remaining
fields. -/
theorem c6_counterexample :
    (read_incoming_sms "004402912100080000000000000009060804010203020041").pinfo ≠
        some (PartialInfo.mk 258 3 2) ∧
    (read_incoming_sms "004402912100080000000000000009060804010203020041").pinfo =
        some (PartialInfo.mk 1 2 3) := by
  constructor
  · decide
  · decide

/-- C6 amended: for an information-element identifier 0x08 (as for
0x00) read_incoming_sms takes the single byte at user-data-header
offset 3 as the reference, the byte at offset 4 as parts_count and the
byte at offset 5 as part_number; on a 16-bit element whose reference is
hi*256+lo this yields reference = hi, parts_count = lo and
part_number = the element's total field. -/
theorem c6_udh_extraction_amended (hi lo total seq : Nat) :
    read_incoming_sms_body (c6_pdu_bytes hi lo total seq) =
      some (SmsDict.mk "12" "A" PyDateTime.now (some (PartialInfo.mk hi lo total))) := by
  rfl

/-- C9 counterexample: the response "+CREG: 2,1\r\nOK\r\n" (registration
reported with URC mode 2) shows a registration status of ,1, yet
check_network_status reports no service, because the code matches the
literal prefixes "+CREG: 0,1" / "+CREG: 0,5" only. -/
theorem c9_counterexample :
    strContains "+CREG: 2,1\r\nOK\r\n" ",1" = true ∧
    strContains "+CEREG: 2,1\r\nOK\r\n" ",1" = true ∧
    check_network_status "+CREG: 2,1\r\nOK\r\n" "+CEREG: 2,1\r\nOK\r\n" = false := by
  refine ⟨by decide, by decide, by decide⟩

/-- C9 amended: check_network_status reports service exactly when the
CREG response contains the literal "+CREG: 0,1" or "+CREG: 0,5", or the
CEREG response contains "+CEREG: 0,1" or "+CEREG: 0,5" (so a ,1/,5
status with a URC-mode prefix other than 0 is not recognised); whenever
it reports service, the response does contain ,1 or ,5.  In the monitor
loop, a service round resets the timer without unlocking, a no-service
round whose duration has reached the timeout (default 180 s) issues the
unlock sequence and resets the timer, and a shorter no-service round
leaves the timer alone. -/
theorem c9_amended :
    (∀ creg cereg : String,
        check_network_status creg cereg =
          (strContains creg "+CREG: 0,1" || strContains creg "+CREG: 0,5" ||
           strContains cereg "+CEREG: 0,1" || strContains cereg "+CEREG: 0,5")) ∧
    (∀ creg cereg : String, check_network_status creg cereg = true →
        (strContains creg ",1" || strContains creg ",5" ||
         strContains cereg ",1" || strContains cereg ",5") = true) ∧
    (∀ last now timeout : Int, ∀ svc : Bool,
        (svc = true → watchdog_step last now svc timeout = (now, false)) ∧
        (svc = false → timeout ≤ now - last →
          watchdog_step last now svc timeout = (now, true)) ∧
        (svc = false → now - last < timeout →
          watchdog_step last now svc timeout = (last, false))) := by
  refine ⟨?_, ?_, ?_⟩
  · intro creg cereg
    unfold check_network_status
    by_cases h1 : (strContains creg "+CREG: 0,1" || strContains creg "+CREG: 0,5") = true
    · simp only [h1, if_true]
      rcases Bool.or_eq_true_iff.mp h1 with h | h <;> simp [h]
    · simp only [h1, if_false]
      simp only [Bool.or_eq_true_iff] at h1
      push_neg at h1
      have e1 : strContains creg "+CREG: 0,1" = false := by
        cases hx : strContains creg "+CREG: 0,1" <;> simp_all
      have e2 : strContains creg "+CREG: 0,5" = false := by
        cases hx : strContains creg "+CREG: 0,5" <;> simp_all
      by_cases h2 : (strContains cereg "+CEREG: 0,1" || strContains cereg "+CEREG: 0,5") = true
      · simp only [h2, if_true]
        rcases Bool.or_eq_true_iff.mp h2 with h | h <;> simp [e1, e2, h]
      · have e3 : strContains cereg "+CEREG: 0,1" = false := by
          cases hx : strContains cereg "+CEREG: 0,1" <;> simp_all
        have e4 : strContains cereg "+CEREG: 0,5" = false := by
          cases hx : strContains cereg "+CEREG: 0,5" <;> simp_all
        simp [h2, e1, e2, e3, e4]
  · intro creg cereg h
    have hconv : ∀ (hay : String) (big small : String),
        strContains hay big = true → small.data <:+: big.data →
        strContains hay small = true := by
      intro hay big small hb hsb
      have hb2 : big.data <:+: hay.data := of_decide_eq_true hb
      exact decide_eq_true (List.IsInfix.trans hsb hb2)
    unfold check_network_status at h
    by_cases h1 : strContains creg "+CREG: 0,1" = true
    · have := hconv creg "+CREG: 0,1" ",1" h1 (by decide)
      simp [this]
    · by_cases h2 : strContains creg "+CREG: 0,5" = true
      · have := hconv creg "+CREG: 0,5" ",5" h2 (by decide)
        simp [this]
      · by_cases h3 : strContains cereg "+CEREG: 0,1" = true
        · have := hconv cereg "+CEREG: 0,1" ",1" h3 (by decide)
          simp [this]
        · by_cases h4 : strContains cereg "+CEREG: 0,5" = true
          · have := hconv cereg "+CEREG: 0,5" ",5" h4 (by decide)
            simp [this]
          · simp [h1, h2, h3, h4] at h
  · intro last now timeout svc
    refine ⟨?_, ?_, ?_⟩
    · intro hs
      simp [watchdog_step, hs]
    · intro hs ht
      simp [watchdog_step, hs, ht]
    · intro hs ht
      have : ¬ (timeout ≤ now - last) := by omega
      simp [watchdog_step, hs, this]

/-- Witness for C9 at concrete values: the exact literal is recognised,
and a 181-second no-service stretch with the default 180-second timeout
issues the unlock and resets the timer. -/
theorem c9_amended_witness :
    check_network_status "+CREG: 0,1\r\nOK\r\n" "" =
      (strContains "+CREG: 0,1\r\nOK\r\n" "+CREG: 0,1" ||
       strContains "+CREG: 0,1\r\nOK\r\n" "+CREG: 0,5" ||
       strContains "" "+CEREG: 0,1" || strContains "" "+CEREG: 0,5") ∧
    watchdog_step 0 181 false default_no_service_timeout = (181, true) :=
  ⟨(c9_amended.1 "+CREG: 0,1\r\nOK\r\n" ""),
   ((c9_amended.2.2 0 181 default_no_service_timeout false).2.1 rfl (by decide))⟩

/-- C8 counterexample: when the first attempt ends in
asyncio.TimeoutError, _do_send returns immediately after that single
attempt with no back-off sleep — the outcome is not treated as a
retriable failure and the message is not retried up to 3 times as the
claim states. -/
theorem c8_counterexample :
    do_send (fun _ => AttemptOutcome.timeoutExc) = (SendOutcome.aborted 1, []) ∧
    (SendOutcome.aborted 1, ([] : List Nat)) ≠ (SendOutcome.dropped 3, [1, 2]) := by
  refine ⟨by decide, by decide⟩

/-- C8 amended: an attempt succeeds exactly on HTTP 200 with JSON
errcode 0; an asyncio timeout or cancellation aborts _do_send at once
with no further attempt; every other outcome is retried with a
back-off of retry_delay * attempt-number seconds, up to max_retries = 3
attempts, after which the message is dropped with an error log rather
than raised. -/
theorem c8_retry_amended (attempts : Nat → AttemptOutcome) :
    ((∀ j, j < max_retries → attemptRetriable (attempts j) = true) →
        do_send attempts = (SendOutcome.dropped 3, [1, 2])) ∧
    (∀ k, k < max_retries → (∀ j, j < k → attemptRetriable (attempts j) = true) →
        attemptSucceeds (attempts k) = true →
        do_send attempts =
          (SendOutcome.success (k + 1), (List.range k).map (fun j => retry_delay * (j + 1)))) ∧
    (∀ k, k < max_retries → (∀ j, j < k → attemptRetriable (attempts j) = true) →
        attemptAborts (attempts k) = true →
        do_send attempts =
          (SendOutcome.aborted (k + 1), (List.range k).map (fun j => retry_delay * (j + 1)))) := by
  have split_fail : ∀ o, attemptRetriable o = true →
      attemptSucceeds o = false ∧ attemptAborts o = false := by
    intro o h
    simp only [attemptRetriable, Bool.and_eq_true, Bool.not_eq_true'] at h
    exact h
  refine ⟨?_, ?_, ?_⟩
  · intro h
    obtain ⟨s0, a0⟩ := split_fail _ (h 0 (by decide))
    obtain ⟨s1, a1⟩ := split_fail _ (h 1 (by decide))
    obtain ⟨s2, a2⟩ := split_fail _ (h 2 (by decide))
    simp [do_send, max_retries, do_send_aux, retry_delay, s0, a0, s1, a1, s2, a2]
  · intro k hk hfail hsucc
    have hk3 : k < 3 := hk
    interval_cases k
    · simp [do_send, max_retries, do_send_aux, retry_delay, hsucc]
    · obtain ⟨s0, a0⟩ := split_fail _ (hfail 0 (by decide))
      simp [do_send, max_retries, do_send_aux, retry_delay, s0, a0, hsucc] <;> decide
    · obtain ⟨s0, a0⟩ := split_fail _ (hfail 0 (by decide))
      obtain ⟨s1, a1⟩ := split_fail _ (hfail 1 (by decide))
      simp [do_send, max_retries, do_send_aux, retry_delay, s0, a0, s1, a1, hsucc] <;> decide
  · intro k hk hfail habort
    have hk3 : k < 3 := hk
    have hs : attemptSucceeds (attempts k) = false := by
      cases h : attempts k <;> simp_all [attemptAborts, attemptSucceeds]
    interval_cases k
    · simp [do_send, max_retries, do_send_aux, retry_delay, hs, habort]
    · obtain ⟨s0, a0⟩ := split_fail _ (hfail 0 (by decide))
      simp [do_send, max_retries, do_send_aux, retry_delay, s0, a0, hs, habort] <;> decide
    · obtain ⟨s0, a0⟩ := split_fail _ (hfail 0 (by decide))
      obtain ⟨s1, a1⟩ := split_fail _ (hfail 1 (by decide))
      simp [do_send, max_retries, do_send_aux, retry_delay, s0, a0, s1, a1, hs, habort] <;> decide

/-- Witness for C8: two network failures followed by a successful
delivery succeed on the third attempt after back-offs of 1 s and 2 s. -/
theorem c8_retry_amended_witness :
    do_send (fun j => if j < 2 then AttemptOutcome.netExc
        else AttemptOutcome.http 200 (HttpBody.parsed (some 0))) =
      (SendOutcome.success 3, [1, 2]) := by
  have h := (c8_retry_amended (fun j => if j < 2 then AttemptOutcome.netExc
      else AttemptOutcome.http 200 (HttpBody.parsed (some 0)))).2.1 2 (by decide)
      (by decide) (by decide)
  simpa using h

/-- Invariant of the response loop: a buffer within the cap stays
within the cap, and the truncation warning is raised only with a buffer
of exactly max_response_size bytes. -/
theorem send_loop_cap : ∀ (chunks : List Recv) (response : List Nat),
    response.length ≤ max_response_size →
    (send_command_loop response chunks).response.length ≤ max_response_size ∧
    ((send_command_loop response chunks).truncated = true →
      (send_command_loop response chunks).response.length = max_response_size) := by
  intro chunks
  induction chunks with
  | nil =>
    intro response h
    by_cases hr : response = [] <;> simp [send_command_loop, hr, h]
  | cons c rest ih =>
    intro response h
    cases c with
    | exc => simpa [send_command_loop] using ih response h
    | ok chunk =>
      by_cases hc : chunk = []
      · simpa [send_command_loop, hc] using ih response h
      · by_cases hcap : max_response_size < response.length + chunk.length
        · have hmin : (chunk.take (max_response_size - response.length)).length =
              max_response_size - response.length := by
            simp [List.length_take]
            omega
          constructor
          · simp [send_command_loop, hc, hcap, hmin]
            omega
          · intro _
            simp [send_command_loop, hc, hcap, hmin]
            omega
        · by_cases hterm : has_terminator (response ++ chunk) = true
          · constructor
            · simp [send_command_loop, hc, hcap, hterm]
              omega
            · intro habs
              simp [send_command_loop, hc, hcap, hterm] at habs
          · have hnext := ih (response ++ chunk) (by simp; omega)
            simpa [send_command_loop, hc, hcap, hterm] using hnext

/-- C4: for every sequence of transport chunks, the buffer returned by
send_command never exceeds 1 MiB, and whenever the truncation warning
is logged the returned buffer is exactly 1 MiB long. -/
theorem c4_buffer_cap (chunks : List Recv) :
    (send_command chunks).response.length ≤ max_response_size ∧
    ((send_command chunks).truncated = true →
      (send_command chunks).response.length = max_response_size) :=
  send_loop_cap chunks [] (by simp)

/-- A single over-long chunk is truncated and returned with the
warning. -/
theorem send_command_single_overflow (chunk : List Nat) (hc : chunk ≠ [])
    (hlen : max_response_size < chunk.length) :
    send_command [Recv.ok chunk] = SendOut.mk (chunk.take max_response_size) true true := by
  have hcap : max_response_size < ([] : List Nat).length + chunk.length := by
    simpa using hlen
  simp [send_command, send_command_loop, hc, hcap, hlen]

/-- Witness for C4: a single chunk one byte longer than the cap is
truncated to exactly max_response_size bytes with the warning logged. -/
theorem c4_buffer_cap_witness :
    (send_command [Recv.ok (List.replicate (max_response_size + 1) 0)]).truncated = true ∧
    (send_command [Recv.ok (List.replicate (max_response_size + 1) 0)]).response.length =
      max_response_size := by
  have htrunc :
      (send_command [Recv.ok (List.replicate (max_response_size + 1) 0)]).truncated = true := by
    rw [send_command_single_overflow (List.replicate (max_response_size + 1) 0)
      (by simp) (by simp)]
  exact ⟨htrunc, (c4_buffer_cap [Recv.ok (List.replicate (max_response_size + 1) 0)]).2 htrunc⟩

/-- In the response loop, the connection is marked down exactly when
the returned buffer is empty. -/
theorem send_loop_conn : ∀ (chunks : List Recv) (response : List Nat),
    ((send_command_loop response chunks).connected = false ↔
      (send_command_loop response chunks).response = []) := by
  intro chunks
  induction chunks with
  | nil =>
    intro response
    by_cases hr : response = [] <;> simp [send_command_loop, hr]
  | cons c rest ih =>
    intro response
    cases c with
    | exc => simpa [send_command_loop] using ih response
    | ok chunk =>
      by_cases hc : chunk = []
      · simpa [send_command_loop, hc] using ih response
      · by_cases hcap : max_response_size < response.length + chunk.length
        · have hne : response ++ chunk.take (max_response_size - response.length) ≠ [] := by
            intro habs
            rcases List.append_eq_nil.mp habs with ⟨h1, h2⟩
            subst h1
            rw [List.take_eq_nil_iff] at h2
            simp only [List.length_nil, Nat.sub_zero] at h2
            have hm : max_response_size = 1048576 := rfl
            rcases h2 with h2 | h2
            · omega
            · exact hc h2
          simp [send_command_loop, hc, hcap, hne]
        · by_cases hterm : has_terminator (response ++ chunk) = true
          · simp [send_command_loop, hc, hcap, hterm]
          · simpa [send_command_loop, hc, hcap, hterm] using ih (response ++ chunk)

/-- The returned buffer is empty exactly when every receive before the
timeout was an exception or yielded no bytes. -/
theorem send_loop_empty : ∀ (chunks : List Recv) (response : List Nat),
    ((send_command_loop response chunks).response = [] ↔
      (response = [] ∧ ∀ c ∈ chunks, c = Recv.exc ∨ c = Recv.ok [])) := by
  intro chunks
  induction chunks with
  | nil =>
    intro response
    by_cases hr : response = [] <;> simp [send_command_loop, hr]
  | cons c rest ih =>
    intro response
    cases c with
    | exc => simp [send_command_loop, ih response]
    | ok chunk =>
      by_cases hc : chunk = []
      · simp [send_command_loop, hc, ih response]
      · by_cases hcap : max_response_size < response.length + chunk.length
        · have hne : response ++ chunk.take (max_response_size - response.length) ≠ [] := by
            intro habs
            rcases List.append_eq_nil.mp habs with ⟨h1, h2⟩
            subst h1
            rw [List.take_eq_nil_iff] at h2
            simp only [List.length_nil, Nat.sub_zero] at h2
            have hm : max_response_size = 1048576 := rfl
            rcases h2 with h2 | h2
            · omega
            · exact hc h2
          simp [send_command_loop, hc, hcap, hne]
        · by_cases hterm : has_terminator (response ++ chunk) = true
          · simp [send_command_loop, hc, hcap, hterm]
          · have hrw : send_command_loop response (Recv.ok chunk :: rest) =
                send_command_loop (response ++ chunk) rest := by
              simp [send_command_loop, hc, hcap, hterm]
            rw [hrw, ih (response ++ chunk)]
            apply iff_of_false
            · rintro ⟨h1, _⟩
              exact hc (List.append_eq_nil.mp h1).2
            · rintro ⟨h1, h2⟩
              rcases h2 (Recv.ok chunk) (by simp) with h | h
              · simp at h
              · simp only [Recv.ok.injEq] at h
                exact hc h

/-- C3 counterexample: one non-terminator chunk "abc" before the
timeout.  No terminator is ever received, yet the caller is handed the
non-empty partial buffer and is_connected stays true, contradicting
the claim that the timeout always yields an empty response with
is_connected set to false. -/
theorem c3_timeout_counterexample :
    has_terminator [97, 98, 99] = false ∧
    send_command [Recv.ok [97, 98, 99]] = SendOut.mk [97, 98, 99] true false ∧
    ¬ ((send_command [Recv.ok [97, 98, 99]]).response = [] ∧
       (send_command [Recv.ok [97, 98, 99]]).connected = false) := by
  refine ⟨by decide, by decide, by decide⟩

/-- C3 amended: send_command never raises (KeyboardInterrupt excepted;
in the model every receive outcome is consumed and a value is always
returned).  When the 2 s timeout elapses without a terminator, the
caller is handed whatever bytes accumulated: is_connected is set to
false exactly when that buffer is empty, and the buffer is empty
exactly when every receive before the timeout raised or returned no
bytes. -/
theorem c3_timeout_amended (chunks : List Recv) :
    ((send_command chunks).connected = false ↔ (send_command chunks).response = []) ∧
    ((send_command chunks).response = [] ↔
      ∀ c ∈ chunks, c = Recv.exc ∨ c = Recv.ok []) := by
  constructor
  · exact send_loop_conn chunks []
  · have h := send_loop_empty chunks []
    simpa using h


/-- If the de-dup test passes (with "the state was idle" read on the
state as it was when the line arrived), the clip branch notifies,
broadcasts a ringing incoming_call, and records the number and time. -/
theorem handle_clip_notified (s : CallHandlerState) (n : String) (now : Int) (nowStr : String)
    (hinv : callInv s)
    (h : some n ≠ s.last_call_number ∨ 30 < now - s.last_call_time ∨
      s.current_call_state = "idle") :
    CallHandler_handle s (CallLine.clip (some n)) now nowStr =
      (CallHandlerState.mk (some n) now s.ring_received "ringing",
       [Event.notify "来电提醒"
          ("时间：" ++ nowStr ++ "\n号码：" ++ n ++ "\n状态：来电振铃") "CALL",
        Event.callBroadcast nowStr n "ringing"]) := by
  by_cases hrr : s.ring_received
  · simp [CallHandler_handle, hrr]
    intro he ht
    rcases h with h | h | h
    · exact absurd he h
    · omega
    · exact h
  · simp [CallHandler_handle, hrr]
    intro he
    rcases h with h | h | h
    · exact absurd he h
    · omega
    · rw [hinv h] at he
      exact absurd he (by simp)

/-- If the de-dup test fails, the clip branch emits nothing; only the
ring-state update happens. -/
theorem handle_clip_skipped (s : CallHandlerState) (n : String) (now : Int) (nowStr : String)
    (h1 : some n = s.last_call_number)
    (h2 : ¬ (30 < now - s.last_call_time))
    (h3 : s.current_call_state ≠ "idle") :
    CallHandler_handle s (CallLine.clip (some n)) now nowStr =
      ((if ¬ s.ring_received then
          CallHandlerState.mk s.last_call_number s.last_call_time s.ring_received "ringing"
        else s), []) := by
  by_cases hrr : s.ring_received
  · simp [CallHandler_handle, hrr]
    exact ⟨h1, by omega, h3⟩
  · simp [CallHandler_handle, hrr]
    exact ⟨h1, by omega⟩

/-- C7: a +CLIP line with an extractable number notifies and broadcasts
incoming_call with state "ringing" exactly when the number differs from
last_call_number, or more than 30 seconds have passed since
last_call_time, or the call state was idle; two +CLIP lines with the
same number within 30 seconds yield exactly one notification (the
second emits nothing); a NO CARRIER / ^CEND: line resets
last_call_number, last_call_time and the state to idle, and the next
+CLIP after it always notifies.  The hypothesis callInv holds in every
reachable state: it is established by __init__ and preserved by every
handler step (callInv_init / callInv_preserved below). -/
theorem c7_call_dedup (s : CallHandlerState) (n : String) (t1 t2 : Int) (a b : String)
    (hinv : callInv s) :
    ((CallHandler_handle s (CallLine.clip (some n)) t1 a).2 =
      (if some n ≠ s.last_call_number ∨ 30 < t1 - s.last_call_time ∨
          s.current_call_state = "idle" then
        [Event.notify "来电提醒" ("时间：" ++ a ++ "\n号码：" ++ n ++ "\n状态：来电振铃") "CALL",
         Event.callBroadcast a n "ringing"]
      else [])) ∧
    (t2 - t1 ≤ 30 →
      (CallHandler_handle s (CallLine.clip (some n)) t1 a).2 ≠ [] →
      (CallHandler_handle (CallHandler_handle s (CallLine.clip (some n)) t1 a).1
        (CallLine.clip (some n)) t2 b).2 = []) ∧
    ((CallHandler_handle s CallLine.ended t1 a).1 = callHandlerInit ∧
      (CallHandler_handle (CallHandler_handle s CallLine.ended t1 a).1
        (CallLine.clip (some n)) t2 b).2 ≠ []) := by
  refine ⟨?_, ?_, ?_, ?_⟩
  · by_cases hC : (some n ≠ s.last_call_number ∨ 30 < t1 - s.last_call_time ∨
        s.current_call_state = "idle")
    · rw [handle_clip_notified s n t1 a hinv hC, if_pos hC]
    · push_neg at hC
      obtain ⟨h1, h2, h3⟩ := hC
      rw [handle_clip_skipped s n t1 a h1 (by omega) h3]
      have hnc : ¬ (some n ≠ s.last_call_number ∨ 30 < t1 - s.last_call_time ∨
          s.current_call_state = "idle") := by
        rintro (hx | hx | hx)
        · exact hx h1
        · omega
        · exact h3 hx
      rw [if_neg hnc]
  · intro hd h1
    by_cases hC : (some n ≠ s.last_call_number ∨ 30 < t1 - s.last_call_time ∨
        s.current_call_state = "idle")
    · rw [handle_clip_notified s n t1 a hinv hC]
      rw [handle_clip_skipped (CallHandlerState.mk (some n) t1 s.ring_received "ringing")
        n t2 b rfl (show ¬ (30 < t2 - t1) by omega)
        (show ("ringing" : String) ≠ "idle" by decide)]
    · push_neg at hC
      obtain ⟨h1x, h2x, h3x⟩ := hC
      rw [handle_clip_skipped s n t1 a h1x (by omega) h3x] at h1
      exact absurd rfl h1
  · rfl
  · have hre : (CallHandler_handle s CallLine.ended t1 a).1 = callHandlerInit := rfl
    rw [hre]
    rw [handle_clip_notified callHandlerInit n t2 b (fun _ => rfl) (Or.inl (by simp [callHandlerInit]))]
    simp

/-- The initial CallHandler state satisfies the invariant. -/
theorem callInv_init : callInv callHandlerInit := fun _ => rfl

/-- Every CallHandler step preserves the invariant. -/
theorem callInv_preserved (s : CallHandlerState) (line : CallLine) (now : Int)
    (nowStr : String) (hinv : callInv s) :
    callInv (CallHandler_handle s line now nowStr).1 := by
  cases line with
  | ring =>
    intro h
    simp [CallHandler_handle] at h
  | clip num =>
    cases num with
    | none =>
      by_cases hrr : s.ring_received
      · simpa [CallHandler_handle, hrr] using hinv
      · intro h
        simp [CallHandler_handle, hrr] at h
    | some phone =>
      by_cases hC : (some phone ≠ s.last_call_number ∨ 30 < now - s.last_call_time ∨
          s.current_call_state = "idle")
      · rw [handle_clip_notified s phone now nowStr hinv hC]
        intro h
        simp at h
      · push_neg at hC
        obtain ⟨h1, h2, h3⟩ := hC
        rw [handle_clip_skipped s phone now nowStr h1 (by omega) h3]
        by_cases hrr : s.ring_received
        · simpa [hrr] using hinv
        · intro h
          simp [hrr] at h
  | ended =>
    intro _
    rfl

/-- Witness for C7 at concrete inputs: from the initial state, a first
+CLIP notifies, a repeat of the same number 10 s later emits nothing,
and NO CARRIER resets the state. -/
theorem c7_call_dedup_witness :
    ((CallHandler_handle callHandlerInit (CallLine.clip (some "15555550100")) 0 "T").2 =
      [Event.notify "来电提醒" "时间：T\n号码：15555550100\n状态：来电振铃" "CALL",
       Event.callBroadcast "T" "15555550100" "ringing"]) ∧
    ((CallHandler_handle (CallHandler_handle callHandlerInit
        (CallLine.clip (some "15555550100")) 0 "T").1
        (CallLine.clip (some "15555550100")) 10 "U").2 = []) ∧
    (CallHandler_handle callHandlerInit CallLine.ended 20 "V").1 = callHandlerInit := by
  refine ⟨by decide, ?_, by decide⟩
  exact (c7_call_dedup callHandlerInit "15555550100" 0 10 "T" "U" callInv_init).2.1
    (by decide) (by decide)

theorem lookup_mem_pstore : ∀ (l : PStore) (k : String) (v : PRec),
    l.lookup k = some v → (k, v) ∈ l := by
  intro l
  induction l with
  | nil => intro k v h; simp [List.lookup] at h
  | cons a t ih =>
    intro k v h
    obtain ⟨a1, a2⟩ := a
    rw [List.lookup] at h
    by_cases hk : k == a1
    · rw [hk] at h
      simp only [] at h
      have hk2 : k = a1 := by simpa using hk
      have hv : a2 = v := by injection h
      subst hk2
      subst hv
      exact List.mem_cons_self _ _
    · have hk2 : (k == a1) = false := by simpa using hk
      rw [hk2] at h
      exact List.mem_cons_of_mem _ (ih k v h)

theorem expire_old_mem (store : PStore) (now : Int) :
    ∀ kv ∈ expire_old store now, kv ∈ store ∧ now - kv.2.timestamp ≤ 3600 := by
  intro kv h
  rw [expire_old, List.mem_filter] at h
  exact ⟨h.1, of_decide_eq_true h.2⟩

theorem expire_old_len (store : PStore) (now : Int) :
    (expire_old store now).length ≤ store.length :=
  List.length_filter_le _ _

theorem dict_del_sub (l : PStore) (k : String) : ∀ kv ∈ dict_del l k, kv ∈ l := by
  intro kv h
  rw [dict_del, List.mem_filter] at h
  exact h.1

theorem dict_del_len_le (l : PStore) (k : String) : (dict_del l k).length ≤ l.length :=
  List.length_filter_le _ _

theorem dict_del_len_lt (l : PStore) (k : String) (v : PRec) (h : (k, v) ∈ l) :
    (dict_del l k).length < l.length := by
  induction l with
  | nil => simp at h
  | cons a t ih =>
    rcases List.mem_cons.mp h with h1 | h1
    · subst h1
      rw [dict_del, List.filter_cons]
      simp only [decide_eq_true_eq]
      rw [if_neg (by simp)]
      have := List.length_filter_le (fun kv => decide (kv.1 ≠ k)) t
      simp only [List.length_cons]
      omega
    · rw [dict_del, List.filter_cons]
      by_cases ha : a.1 ≠ k
      · rw [if_pos (by simpa using ha)]
        have := ih h1
        rw [dict_del] at this
        simp only [List.length_cons]
        omega
      · rw [if_neg (by simpa using ha)]
        have := ih h1
        rw [dict_del] at this
        simp only [List.length_cons]
        omega

theorem oldest_key_aux_mem : ∀ (l : PStore) (bk : String) (bt : Int),
    oldest_key_aux l bk bt = bk ∨ ∃ r, (oldest_key_aux l bk bt, r) ∈ l := by
  intro l
  induction l with
  | nil => intro bk bt; left; rfl
  | cons a t ih =>
    intro bk bt
    rw [oldest_key_aux]
    by_cases hlt : a.2.timestamp < bt
    · rw [if_pos hlt]
      rcases ih a.1 a.2.timestamp with h | ⟨r, h⟩
      · right
        exact ⟨a.2, by rw [h]; left⟩
      · right
        exact ⟨r, List.mem_cons_of_mem _ h⟩
    · rw [if_neg hlt]
      rcases ih bk bt with h | ⟨r, h⟩
      · left; exact h
      · right; exact ⟨r, List.mem_cons_of_mem _ h⟩

theorem oldest_key_mem (l : PStore) (k : String) (h : oldest_key l = some k) :
    ∃ r, (k, r) ∈ l := by
  cases l with
  | nil => simp [oldest_key] at h
  | cons a t =>
    rw [oldest_key] at h
    injection h with h
    rcases oldest_key_aux_mem t a.1 a.2.timestamp with h1 | ⟨r, h1⟩
    · refine ⟨a.2, ?_⟩
      rw [← h, h1]
      left
    · exact ⟨r, by rw [← h]; exact List.mem_cons_of_mem _ h1⟩

theorem hp_after_cap_len (store : PStore) (now : Int) (h : store.length ≤ 101) :
    (hp_after_cap store now).length ≤ 100 := by
  rw [hp_after_cap]
  have h1 := expire_old_len store now
  by_cases hc : 100 < (expire_old store now).length
  · rw [if_pos hc]
    cases hok : oldest_key (expire_old store now) with
    | none =>
      cases hl : expire_old store now with
      | nil => simp [hl]
      | cons a t => rw [hl, oldest_key] at hok; simp at hok
    | some k =>
      obtain ⟨r, hr⟩ := oldest_key_mem _ _ hok
      have hlt := dict_del_len_lt (expire_old store now) k r hr
      show (dict_del (expire_old store now) k).length ≤ 100
      omega
  · rw [if_neg hc]
    omega

theorem hp_after_cap_mem (store : PStore) (now : Int) :
    ∀ kv ∈ hp_after_cap store now, kv ∈ store ∧ now - kv.2.timestamp ≤ 3600 := by
  intro kv h
  rw [hp_after_cap] at h
  have hsub : kv ∈ expire_old store now := by
    by_cases hc : 100 < (expire_old store now).length
    · rw [if_pos hc] at h
      cases hok : oldest_key (expire_old store now) with
      | none => rw [hok] at h; exact h
      | some k => rw [hok] at h; exact dict_del_sub _ _ kv h
    · rw [if_neg hc] at h
      exact h
  exact expire_old_mem store now kv hsub

theorem lookup_append_self : ∀ (l : PStore) (k : String) (v : PRec),
    ((l ++ [(k, v)] : PStore).lookup k).isSome = true := by
  intro l
  induction l with
  | nil =>
    intro k v
    simp [List.lookup]
  | cons a t ih =>
    intro k v
    rw [List.cons_append, List.lookup]
    by_cases hk : k == a.1
    · rw [hk]
      rfl
    · have hk2 : (k == a.1) = false := by simpa using hk
      rw [hk2]
      exact ih k v

theorem hp_insert_lookup_isSome (store2 : PStore) (key sender : String) (p : PartialInfo)
    (now : Int) : ((hp_insert store2 key sender p now).lookup key).isSome = true := by
  rw [hp_insert]
  by_cases hc : (store2.lookup key).isSome = true
  · rw [if_pos hc]
    exact hc
  · rw [if_neg hc]
    exact lookup_append_self store2 key _

theorem hp_insert_len (store2 : PStore) (key sender : String) (p : PartialInfo) (now : Int)
    (h : store2.length ≤ 100) :
    (hp_insert store2 key sender p now).length ≤ 101 := by
  rw [hp_insert]
  by_cases hc : (store2.lookup key).isSome = true
  · rw [if_pos hc]
    omega
  · rw [if_neg hc]
    simp
    omega

theorem hp_insert_mem (store2 : PStore) (key sender : String) (p : PartialInfo) (now : Int) :
    ∀ kv ∈ hp_insert store2 key sender p now,
      kv ∈ store2 ∨ kv = (key, PRec.mk sender [] p.parts_count now) := by
  intro kv h
  rw [hp_insert] at h
  by_cases hc : (store2.lookup key).isSome = true
  · rw [if_pos hc] at h
    exact Or.inl h
  · rw [if_neg hc] at h
    rcases List.mem_append.mp h with h1 | h1
    · exact Or.inl h1
    · right
      simpa using h1

theorem dict_set_len (l : PStore) (k : String) (v : PRec)
    (h : (l.lookup k).isSome = true) : (dict_set l k v).length = l.length := by
  rw [dict_set, if_pos h, List.length_map]

theorem dict_set_mem (l : PStore) (k : String) (v : PRec) :
    ∀ kv ∈ dict_set l k v, kv ∈ l ∨ kv = (k, v) := by
  intro kv h
  rw [dict_set] at h
  by_cases hc : (l.lookup k).isSome = true
  · rw [if_pos hc] at h
    rcases List.mem_map.mp h with ⟨x, hx, hxe⟩
    by_cases hxk : x.1 = k
    · rw [if_pos hxk] at hxe
      exact Or.inr hxe.symm
    · rw [if_neg hxk] at hxe
      exact Or.inl (hxe ▸ hx)
  · rw [if_neg hc] at h
    rcases List.mem_append.mp h with h1 | h1
    · exact Or.inl h1
    · right
      simpa using h1

/-- C2 amended: across every call to _handle_partial_sms the store
stays bounded by 101 records (not 100: the `len > 100` cap eviction
runs before insertion, so a call can end with 101 records and eviction
of the record oldest by timestamp only fires on the following call),
and every call first evicts all records whose timestamp is more than
3600 seconds in the past, so afterwards no surviving record is older
than 3600 s. -/
theorem c2_store_bound_amended (store : PStore) (sender content tstr : String)
    (p : PartialInfo) (now : Int) :
    (store.length ≤ 101 → (handle_partial_sms store sender content tstr p now).1.length ≤ 101) ∧
    (∀ kv ∈ (handle_partial_sms store sender content tstr p now).1,
      now - kv.2.timestamp ≤ 3600) := by
  simp only [handle_partial_sms]
  set key := sender ++ "_" ++ toString p.reference with hkey
  set s3 := hp_insert (hp_after_cap store now) key sender p now with hs3
  set rec0 := (s3.lookup key).getD (PRec.mk sender [] p.parts_count now) with hrec0
  set rec1 := PRec.mk rec0.sender (parts_set rec0.parts p.part_number content)
      rec0.total_parts rec0.timestamp with hrec1
  set s4 := dict_set s3 key rec1 with hs4
  have hm : ∀ kv ∈ s3, now - kv.2.timestamp ≤ 3600 := by
    intro kv hkv
    rcases hp_insert_mem _ _ _ _ _ kv hkv with h | h
    · exact (hp_after_cap_mem store now kv h).2
    · rw [h]
      simp
  have hsome := hp_insert_lookup_isSome (hp_after_cap store now) key sender p now
  have hrec : now - rec0.timestamp ≤ 3600 := by
    rw [hrec0]
    cases hl : s3.lookup key with
    | none => simp
    | some v =>
      simp only [Option.getD_some]
      exact hm (key, v) (lookup_mem_pstore _ _ _ hl)
  have hs4mem : ∀ kv ∈ s4, now - kv.2.timestamp ≤ 3600 := by
    intro kv hkv
    rcases dict_set_mem _ _ _ kv hkv with h | h
    · exact hm kv h
    · rw [h]
      exact hrec
  have hs4len : s3.length ≤ 101 → s4.length ≤ 101 := by
    intro h
    rw [hs4, dict_set_len s3 key rec1 hsome]
    exact h
  constructor
  · intro h101
    have h3 : s3.length ≤ 101 :=
      hp_insert_len _ _ _ _ _ (hp_after_cap_len store now h101)
    split
    · split
      · have := dict_del_len_le s4 key
        have := hs4len h3
        simp only []
        omega
      · exact hs4len h3
    · exact hs4len h3
  · intro kv hkv
    revert hkv
    split
    · split
      · intro hkv
        exact hs4mem kv (dict_del_sub _ _ kv hkv)
      · intro hkv
        exact hs4mem kv hkv
    · intro hkv
      exact hs4mem kv hkv



theorem lookup_none_iff : ∀ (l : PStore) (k : String),
    l.lookup k = none ↔ ∀ kv ∈ l, kv.1 ≠ k := by
  intro l k
  induction l with
  | nil => simp [List.lookup]
  | cons a t ih =>
    rw [List.lookup]
    by_cases hk : k == a.1
    · rw [hk]
      have : k = a.1 := by simpa using hk
      constructor
      · intro h
        simp at h
      · intro h
        exact absurd this.symm (h a (by simp))
    · have hk2 : (k == a.1) = false := by simpa using hk
      rw [hk2]
      have hne : a.1 ≠ k := fun he => hk (by simp [he])
      constructor
      · intro h kv hkv
        rcases List.mem_cons.mp hkv with h1 | h1
        · rw [h1]; exact hne
        · exact (ih.mp h) kv h1
      · intro h
        exact ih.mpr (fun kv hkv => h kv (List.mem_cons_of_mem _ hkv))

theorem lookup_append_eq (l : PStore) (k : String) (v : PRec)
    (h : l.lookup k = none) : (l ++ [(k, v)] : PStore).lookup k = some v := by
  induction l with
  | nil => simp [List.lookup]
  | cons a t ih =>
    rw [List.lookup] at h
    rw [List.cons_append, List.lookup]
    by_cases hk : k == a.1
    · rw [hk] at h
      simp at h
    · have hk2 : (k == a.1) = false := by simpa using hk
      rw [hk2] at h ⊢
      exact ih h

theorem dict_set_append (l : PStore) (k : String) (v v2 : PRec)
    (h : l.lookup k = none) :
    dict_set (l ++ [(k, v)]) k v2 = l ++ [(k, v2)] := by
  rw [dict_set, if_pos (by rw [lookup_append_eq l k v h]; rfl)]
  rw [List.map_append]
  have h1 : l.map (fun kv => if kv.1 = k then (k, v2) else kv) = l := by
    have hid : ∀ kv ∈ l, (if kv.1 = k then (k, v2) else kv) = kv := by
      intro kv hkv
      exact if_neg ((lookup_none_iff l k).mp h kv hkv)
    rw [List.map_congr_left hid]
    exact List.map_id l
  rw [h1]
  simp

theorem expire_old_id (store : PStore) (now : Int)
    (h : ∀ kv ∈ store, now - kv.2.timestamp ≤ 3600) : expire_old store now = store := by
  rw [expire_old]
  apply List.filter_eq_self.mpr
  intro kv hkv
  exact decide_eq_true (h kv hkv)

theorem hp_after_cap_id (store : PStore) (now : Int)
    (hexp : expire_old store now = store) (hlen : store.length ≤ 100) :
    hp_after_cap store now = store := by
  rw [hp_after_cap, hexp, if_neg (by omega)]

/-- Inserting the first part of a fresh key into a small, unexpired
store: the record is appended, no events are emitted. -/
theorem handle_step_fresh (store : PStore) (sender content tstr : String)
    (p : PartialInfo) (now : Int)
    (hexp : expire_old store now = store)
    (hlen : store.length ≤ 100)
    (hkey : store.lookup (sender ++ "_" ++ toString p.reference) = none)
    (hn : 1 ≠ p.parts_count) :
    handle_partial_sms store sender content tstr p now =
      (store ++ [(sender ++ "_" ++ toString p.reference,
        PRec.mk sender [(p.part_number, content)] p.parts_count now)], [], false) := by
  have hcap : hp_after_cap store now = store := hp_after_cap_id store now hexp hlen
  have hins : hp_insert (hp_after_cap store now) (sender ++ "_" ++ toString p.reference)
      sender p now = store ++ [(sender ++ "_" ++ toString p.reference,
        PRec.mk sender [] p.parts_count now)] := by
    rw [hp_insert, hcap, if_neg (by rw [hkey]; simp)]
  have hlook := lookup_append_eq store (sender ++ "_" ++ toString p.reference)
    (PRec.mk sender [] p.parts_count now) hkey
  simp only [handle_partial_sms, hins, hlook, Option.getD_some]
  rw [dict_set_append store _ _ _ hkey]
  have hps : parts_set [] p.part_number content = [(p.part_number, content)] := by
    rw [parts_set]
    simp [List.lookup]
  rw [hps]
  rw [if_neg (by simpa using hn)]

theorem c2_fold_spec : ∀ (items acc : List (String × Nat)),
    ((acc ++ items).map keyOf).Nodup → (acc ++ items).length ≤ 101 →
    c2_fold (c2_store acc) items = c2_store (acc ++ items) := by
  intro items
  induction items with
  | nil =>
    intro acc hnd hlen
    simp [c2_fold]
  | cons it rest ih =>
    intro acc hnd hlen
    have hstep : handle_partial_sms (c2_store acc) it.1 "x" "t" (PartialInfo.mk it.2 2 1) 0 =
        (c2_store acc ++ [(keyOf it, c2_rec it)], [], false) := by
      have hexp : expire_old (c2_store acc) 0 = c2_store acc := by
        apply expire_old_id
        intro kv hkv
        rcases List.mem_map.mp hkv with ⟨x, _, hx⟩
        rw [← hx]
        simp [c2_rec]
      have hlen2 : (c2_store acc).length ≤ 100 := by
        rw [c2_store, List.length_map]
        simp only [List.length_append, List.length_cons] at hlen
        omega
      have hnotin : keyOf it ∉ acc.map keyOf := by
        rw [List.map_append, List.map_cons] at hnd
        have := (List.nodup_append.mp hnd).2.2
        intro habs
        exact this habs (by simp)
      have hkey : (c2_store acc).lookup (keyOf it) = none := by
        apply (lookup_none_iff _ _).mpr
        intro kv hkv
        rcases List.mem_map.mp hkv with ⟨x, hx1, hx2⟩
        rw [← hx2]
        intro habs
        exact hnotin (habs ▸ List.mem_map_of_mem keyOf hx1)
      exact handle_step_fresh (c2_store acc) it.1 "x" "t" (PartialInfo.mk it.2 2 1) 0
        hexp hlen2 hkey (show (1 : Nat) ≠ 2 by decide)
    rw [c2_fold, List.foldl_cons]
    have hfold : (handle_partial_sms (c2_store acc) it.1 "x" "t"
        (PartialInfo.mk it.2 2 1) 0).1 = c2_store (acc ++ [it]) := by
      rw [hstep]
      simp [c2_store]
    rw [hfold]
    have hih := ih (acc ++ [it]) (by simpa using hnd) (by simpa using hlen)
    rw [c2_fold] at hih
    rw [hih, List.append_assoc]
    rfl

theorem c2_items_nodup : (c2_items.map keyOf).Nodup := by decide

/-- C2 counterexample: inserting 101 distinct (sender, reference)
entries into the empty store leaves 101 records, not 100 — the cap
check `len(...) > 100` runs before the insertion, so eviction first
fires on the 102nd call. -/
theorem c2_counterexample : c2_run.length = 101 ∧ c2_run.length ≠ 100 := by
  have h := c2_fold_spec c2_items [] (by simpa using c2_items_nodup) (by simp [c2_items])
  have hempty : c2_store [] = ([] : PStore) := rfl
  rw [hempty] at h
  simp only [List.nil_append] at h
  rw [c2_run, h]
  constructor
  · simp [c2_store, c2_items]
  · simp [c2_store, c2_items]

/-- Witness for C2 amended at a concrete call. -/
theorem c2_store_bound_amended_witness :
    (handle_partial_sms [] "A" "x" "t" (PartialInfo.mk 1 3 1) 0).1.length ≤ 101 ∧
    ∀ kv ∈ (handle_partial_sms [] "A" "x" "t" (PartialInfo.mk 1 3 1) 0).1,
      (0 : Int) - kv.2.timestamp ≤ 3600 :=
  ⟨(c2_store_bound_amended [] "A" "x" "t" (PartialInfo.mk 1 3 1) 0).1 (by decide),
   (c2_store_bound_amended [] "A" "x" "t" (PartialInfo.mk 1 3 1) 0).2⟩

theorem lookup_pair_of_mem (c : Nat → String) :
    ∀ (K : List Nat) (i : Nat), i ∈ K →
      List.lookup i (K.map (fun k => (k, c k))) = some (c i) := by
  intro K
  induction K with
  | nil => intro i h; simp at h
  | cons a t ih =>
    intro i h
    rw [List.map_cons, List.lookup]
    by_cases hk : i == a
    · have : i = a := by simpa using hk
      rw [hk]
      subst this
      rfl
    · have hk2 : (i == a) = false := by simpa using hk
      rw [hk2]
      have : i ∈ t := by
        rcases List.mem_cons.mp h with h1 | h1
        · exact absurd h1 (by simpa using hk)
        · exact h1
      exact ih i this

theorem lookup_pair_of_not_mem (c : Nat → String) :
    ∀ (K : List Nat) (p : Nat), p ∉ K →
      List.lookup p (K.map (fun k => (k, c k))) = none := by
  intro K
  induction K with
  | nil => intro p _; rfl
  | cons a t ih =>
    intro p h
    rw [List.map_cons, List.lookup]
    have hne : p ≠ a := fun he => h (he ▸ List.mem_cons_self a t)
    have hk2 : (p == a) = false := by simpa using hne
    rw [hk2]
    exact ih p (fun hm => h (List.mem_cons_of_mem _ hm))

theorem mapM_lookup_pair (c : Nat → String) (K : List Nat) :
    ∀ (M : List Nat), (∀ i ∈ M, i ∈ K) →
      (M.mapM (fun i => List.lookup i (K.map (fun k => (k, c k))))) = some (M.map c) := by
  intro M
  induction M with
  | nil => intro _; rfl
  | cons a t ih =>
    intro h
    rw [List.mapM_cons, lookup_pair_of_mem c K a (h a (by simp))]
    rw [ih (fun i hi => h i (List.mem_cons_of_mem _ hi))]
    rfl

theorem join_parts_full (c : Nat → String) (K : List Nat) (n : Nat)
    (hcov : ∀ i ∈ List.range' 1 n, i ∈ K) :
    join_parts (K.map (fun k => (k, c k))) n =
      some (String.join ((List.range' 1 n).map c)) := by
  rw [join_parts, mapM_lookup_pair c K (List.range' 1 n) hcov]
  rfl

theorem lookup_singleton_self (k : String) (v : PRec) :
    (([(k, v)] : PStore).lookup k) = some v := by
  simp [List.lookup]

theorem dict_set_singleton (k : String) (v v2 : PRec) :
    dict_set [(k, v)] k v2 = [(k, v2)] := by
  rw [dict_set, if_pos (by rw [lookup_singleton_self]; rfl)]
  simp

theorem dict_del_singleton (k : String) (v : PRec) :
    dict_del [(k, v)] k = [] := by
  simp [dict_del]

/-- Delivering a new part p of an existing record whose parts K do not
yet fill the message: the part is recorded, nothing is emitted. -/
theorem handle_step_existing_incomplete (sender content tstr : String) (r n : Nat)
    (c : Nat → String) (K : List Nat) (p : Nat) (t0 tm : Int)
    (h36 : tm - t0 ≤ 3600) (hp : p ∉ K) (hcontent : content = c p)
    (hnotfull : K.length + 1 ≠ n) :
    handle_partial_sms [(mkKey sender r, rec_of sender n c K t0)] sender content tstr
        (PartialInfo.mk r n p) tm =
      ([(mkKey sender r, rec_of sender n c (K ++ [p]) t0)], [], false) := by
  simp only [mkKey]
  have hexp : expire_old [(sender ++ "_" ++ toString r, rec_of sender n c K t0)] tm =
      [(sender ++ "_" ++ toString r, rec_of sender n c K t0)] := by
    apply expire_old_id
    intro kv hkv
    rcases List.mem_singleton.mp hkv with rfl
    simpa [rec_of] using h36
  have hcap := hp_after_cap_id _ tm hexp (by simp)
  have hlook : (([(sender ++ "_" ++ toString r, rec_of sender n c K t0)] : PStore).lookup
      (sender ++ "_" ++ toString r)) =
      some (rec_of sender n c K t0) := lookup_singleton_self _ _
  have hins : hp_insert (hp_after_cap
      [(sender ++ "_" ++ toString r, rec_of sender n c K t0)] tm)
      (sender ++ "_" ++ toString r) sender
      (PartialInfo.mk r n p) tm =
      [(sender ++ "_" ++ toString r, rec_of sender n c K t0)] := by
    rw [hp_insert, hcap, if_pos (by rw [hlook]; rfl)]
  simp only [handle_partial_sms, hins, hlook, Option.getD_some]
  have hps : parts_set (rec_of sender n c K t0).parts p content =
      (K ++ [p]).map (fun k => (k, c k)) := by
    rw [parts_set, rec_of]
    simp only []
    rw [if_neg (by rw [lookup_pair_of_not_mem c K p hp]; simp)]
    rw [hcontent, List.map_append]
    rfl
  rw [hps]
  rw [if_neg (by
    rw [rec_of]
    simp only [List.length_map, List.length_append, List.length_singleton]
    simpa using hnotfull)]
  rw [dict_set_singleton]
  rfl

/-- Delivering the final missing part p: the record completes, exactly
one notification and one combined isComplete broadcast are emitted in
that order, and the record is deleted. -/
theorem handle_step_existing_complete (sender content tstr : String) (r n : Nat)
    (c : Nat → String) (K : List Nat) (p : Nat) (t0 tm : Int)
    (h36 : tm - t0 ≤ 3600) (hp : p ∉ K) (hcontent : content = c p)
    (hfull : K.length + 1 = n)
    (hcov : ∀ i ∈ List.range' 1 n, i ∈ K ++ [p]) :
    handle_partial_sms [(mkKey sender r, rec_of sender n c K t0)] sender content tstr
        (PartialInfo.mk r n p) tm =
      ([], [Event.notify sender (fullContent n c) "SMS",
            Event.smsBroadcast sender (fullContent n c) tstr true], false) := by
  simp only [mkKey]
  have hexp : expire_old [(sender ++ "_" ++ toString r, rec_of sender n c K t0)] tm =
      [(sender ++ "_" ++ toString r, rec_of sender n c K t0)] := by
    apply expire_old_id
    intro kv hkv
    rcases List.mem_singleton.mp hkv with rfl
    simpa [rec_of] using h36
  have hcap := hp_after_cap_id _ tm hexp (by simp)
  have hlook : (([(sender ++ "_" ++ toString r, rec_of sender n c K t0)] : PStore).lookup
      (sender ++ "_" ++ toString r)) =
      some (rec_of sender n c K t0) := lookup_singleton_self _ _
  have hins : hp_insert (hp_after_cap
      [(sender ++ "_" ++ toString r, rec_of sender n c K t0)] tm)
      (sender ++ "_" ++ toString r) sender
      (PartialInfo.mk r n p) tm =
      [(sender ++ "_" ++ toString r, rec_of sender n c K t0)] := by
    rw [hp_insert, hcap, if_pos (by rw [hlook]; rfl)]
  simp only [handle_partial_sms, hins, hlook, Option.getD_some]
  have hps : parts_set (rec_of sender n c K t0).parts p content =
      (K ++ [p]).map (fun k => (k, c k)) := by
    rw [parts_set, rec_of]
    simp only []
    rw [if_neg (by rw [lookup_pair_of_not_mem c K p hp]; simp)]
    rw [hcontent, List.map_append]
    rfl
  rw [hps]
  rw [if_pos (by
    rw [rec_of]
    simp only [List.length_map, List.length_append, List.length_singleton]
    simpa using hfull)]
  have hrec : (rec_of sender n c K t0).total_parts = n := rfl
  rw [hrec, join_parts_full c (K ++ [p]) n hcov]
  rw [dict_set_singleton, dict_del_singleton]
  rfl

/-- The first part of a one-part "concatenated" message (n = 1)
completes immediately. -/
theorem handle_step_first_complete (sender content tstr : String) (r : Nat)
    (c : Nat → String) (tm : Int) (hcontent : content = c 1) :
    handle_partial_sms [] sender content tstr (PartialInfo.mk r 1 1) tm =
      ([], [Event.notify sender (fullContent 1 c) "SMS",
            Event.smsBroadcast sender (fullContent 1 c) tstr true], false) := by
  have hfresh := handle_step_fresh [] sender content tstr (PartialInfo.mk r 1 1) tm
  have hins : hp_insert (hp_after_cap [] tm) (sender ++ "_" ++ toString r) sender
      (PartialInfo.mk r 1 1) tm =
      [(sender ++ "_" ++ toString r, PRec.mk sender [] 1 tm)] := by
    rw [hp_insert, hp_after_cap_id [] tm rfl (by simp)]
    rfl
  have hlook := lookup_append_eq [] (sender ++ "_" ++ toString r)
    (PRec.mk sender [] 1 tm) rfl
  simp only [handle_partial_sms, mkKey, hins] at hlook ⊢
  rw [List.nil_append] at hlook
  rw [hlook]
  simp only [Option.getD_some]
  have hps : parts_set (PRec.mk sender [] 1 tm).parts 1 content = [(1, c 1)] := by
    rw [parts_set]
    simp [List.lookup, hcontent]
  rw [hps]
  have hjp : join_parts [(1, c 1)] 1 = some (String.join ((List.range' 1 1).map c)) := by
    have := join_parts_full c [1] 1 (by decide)
    simpa using this
  simp [hjp, dict_set_singleton, dict_del_singleton, fullContent]

/-- Delivering the remaining parts of a partially filled record, in any
order covering the missing part numbers, emits exactly the final
notification and combined broadcast and empties the store. -/
theorem run_from (sender : String) (r n : Nat) (c : Nat → String) :
    ∀ (ds2 : List (Nat × Int × String)) (K : List Nat) (t0 : Int),
      ds2 ≠ [] →
      (K ++ ds2.map (fun d => d.1)).Perm (List.range' 1 n) →
      (∀ d ∈ ds2, d.2.1 - t0 ≤ 3600) →
      run_deliveries sender r n c [(mkKey sender r, rec_of sender n c K t0)] ds2 =
        ([], [Event.notify sender (fullContent n c) "SMS",
              Event.smsBroadcast sender (fullContent n c) (last_tstr ds2) true]) := by
  intro ds2
  induction ds2 with
  | nil => intro K t0 hne _ _; exact absurd rfl hne
  | cons d rest ih =>
    intro K t0 _ hperm htime
    have hnd : (K ++ (d :: rest).map (fun d => d.1)).Nodup :=
      (List.nodup_range' 1 n 1 Nat.one_pos).perm hperm.symm
    have hp : d.1 ∉ K := by
      intro habs
      exact (List.nodup_append.mp hnd).2.2 habs (by simp)
    cases rest with
    | nil =>
      have hlen : K.length + 1 = n := by
        have := hperm.length_eq
        simpa using this
      have hcov : ∀ i ∈ List.range' 1 n, i ∈ K ++ [d.1] := by
        intro i hi
        exact hperm.mem_iff.mpr hi
      rw [run_deliveries]
      rw [handle_step_existing_complete sender (c d.1) d.2.2 r n c K d.1 t0 d.2.1
        (htime d (by simp)) hp rfl hlen hcov]
      rw [run_deliveries]
      simp [last_tstr]
    | cons d2 rest2 =>
      have hlen : K.length + 1 ≠ n := by
        have := hperm.length_eq
        simp only [List.length_append, List.length_map, List.length_cons,
          List.length_range'] at this
        omega
      rw [run_deliveries]
      rw [handle_step_existing_incomplete sender (c d.1) d.2.2 r n c K d.1 t0 d.2.1
        (htime d (by simp)) hp rfl hlen]
      have hperm2 : ((K ++ [d.1]) ++ (d2 :: rest2).map (fun d => d.1)).Perm
          (List.range' 1 n) := by
        rw [List.append_assoc]
        exact hperm
      have hih := ih (K ++ [d.1]) t0 (by simp) hperm2
        (fun d3 h3 => htime d3 (List.mem_cons_of_mem _ h3))
      rw [hih]
      simp [last_tstr]

/-- C1: for a concatenated SMS with parts_count n whose parts carry
distinct part numbers 1..n under one (sender, reference) key, feeding
the parts to _handle_partial_sms in any permutation — each delivery
within 3600 s of the first, so that the record does not expire —
produces exactly one SMS notification followed by exactly one new_sms
broadcast whose content is the concatenation of the part contents in
ascending part_number and whose data carries isComplete = true, and
leaves the store with the record for that key deleted. -/
theorem c1_reassembly_any_permutation (sender : String) (r n : Nat) (c : Nat → String)
    (ds : List (Nat × Int × String))
    (hne : ds ≠ [])
    (hperm : (ds.map (fun d => d.1)).Perm (List.range' 1 n))
    (htime : ∀ d ∈ ds, d.2.1 - first_time ds ≤ 3600) :
    run_deliveries sender r n c [] ds =
      ([], [Event.notify sender (fullContent n c) "SMS",
            Event.smsBroadcast sender (fullContent n c) (last_tstr ds) true]) := by
  cases ds with
  | nil => exact absurd rfl hne
  | cons d rest =>
    have ht0 : first_time (d :: rest) = d.2.1 := rfl
    cases rest with
    | nil =>
      have hn1 : n = 1 := by
        have := hperm.length_eq
        simpa using this.symm
      subst hn1
      have hd1 : d.1 = 1 := by
        have : d.1 ∈ List.range' 1 1 := hperm.mem_iff.mp (by simp)
        simpa using this
      rw [run_deliveries]
      rw [show (PartialInfo.mk r 1 d.1) = PartialInfo.mk r 1 1 from by rw [hd1]]
      rw [show c d.1 = c 1 from by rw [hd1]]
      rw [handle_step_first_complete sender (c 1) d.2.2 r c d.2.1 rfl]
      rw [run_deliveries]
      simp [last_tstr]
    | cons d2 rest2 =>
      have hn2 : 2 ≤ n := by
        have := hperm.length_eq
        simp only [List.length_map, List.length_cons, List.length_range'] at this
        omega
      rw [run_deliveries]
      have hstep := handle_step_fresh [] sender (c d.1) d.2.2 (PartialInfo.mk r n d.1)
        d.2.1 rfl (by simp) rfl (by simpa using (by omega : (1 : Nat) ≠ n))
      rw [hstep]
      have hrec : ([] ++ [(sender ++ "_" ++ toString (PartialInfo.mk r n d.1).reference,
          PRec.mk sender [((PartialInfo.mk r n d.1).part_number, c d.1)]
            (PartialInfo.mk r n d.1).parts_count d.2.1)] : PStore) =
          [(mkKey sender r, rec_of sender n c [d.1] d.2.1)] := by
        simp [mkKey, rec_of]
      rw [hrec]
      have hrf := run_from sender r n c (d2 :: rest2) [d.1] d.2.1 (by simp)
        (by simpa using hperm)
        (fun d3 h3 => htime d3 (List.mem_cons_of_mem _ h3))
      rw [hrf]
      simp [last_tstr]

/-- Witness for C1: a 3-part message (reference 42) delivered in the
order 2, 1, 3. -/
theorem c1_reassembly_witness :
    run_deliveries "S" 42 3 (fun i => toString i) []
        [(2, 0, "a"), (1, 1, "b"), (3, 2, "c")] =
      ([], [Event.notify "S" (fullContent 3 (fun i => toString i)) "SMS",
            Event.smsBroadcast "S" (fullContent 3 (fun i => toString i))
              (last_tstr [(2, 0, "a"), (1, 1, "b"), (3, 2, "c")]) true]) :=
  c1_reassembly_any_permutation "S" 42 3 (fun i => toString i)
    [(2, 0, "a"), (1, 1, "b"), (3, 2, "c")] (by simp) (by decide) (by decide)
